import Mathlib

/-!
# Verification of the `intensityWeighting` scan-correlation pipeline

A shallow embedding of the core of `process_mgf_mzid.py` (and the shared parts
of `process_mgf.py`): the tolerance matcher, the target-set loader, the MGF
spectrum block parser, the scan-key extraction shared with the mzIdentML
parser, and the CSV row/column construction.

Modelling conventions:
* Python strings are Lean `String`s; the Python string methods used by the
  source (`strip`, `split`, `replace`, `startswith`, `in`, `lower`) are
  implemented charwise below so that they evaluate by kernel reduction.
* Python floats are modelled exactly by `Dec`, a decimal number
  `num / 10 ^ exp` with integer mantissa.  All float literals appearing in the
  source files and their arithmetic (`+`, `-`, `*`, `/ 1e6`, `abs`, `<=`) are
  exact decimal operations, so this model is faithful on the decimal data the
  program manipulates (IEEE rounding is out of scope).  `Dec.toRat` gives the
  numeric value.
* Python dicts are insertion-ordered association lists (`dictInsert` replaces
  the value of an existing key in place, otherwise appends — exactly dict
  assignment semantics).
* Reading a file line-by-line becomes a fold over a `List String`.
  A `sys.exit` / uncaught exception path is modelled by `Option` (`none` =
  the run aborts).
-/

namespace IntensityWeighting

/-! ## Charwise models of the Python string methods used by the source -/

/-- Characters stripped by Python's `str.strip()` / split by `str.split()`. -/
def pySpaceChar (c : Char) : Bool :=
  c = ' ' || c = '\t' || c = '\n' || c = '\r' || c = '\x0b' || c = '\x0c'

/-- Remove leading and trailing whitespace from a character list. -/
def pyTrimChars (l : List Char) : List Char :=
  ((l.dropWhile pySpaceChar).reverse.dropWhile pySpaceChar).reverse

def listToStr (l : List Char) : String := String.mk l

/-- Python `str.strip()`. -/
def pyStrip (s : String) : String := listToStr (pyTrimChars s.toList)

def isPrefixOfList : List Char → List Char → Bool
  | [], _ => true
  | _ :: _, [] => false
  | a :: as, b :: bs => a = b && isPrefixOfList as bs

/-- Python `s.startswith(p)`. -/
def pyStartsWith (s p : String) : Bool := isPrefixOfList p.toList s.toList

/-- Fuel-driven worker for `pySplitOn`; `fuel` larger than the list length
makes the final fallback case unreachable. -/
def splitOnAuxF : Nat → List Char → List Char → List Char → List (List Char)
  | 0, _, acc, rest => [acc.reverse ++ rest]
  | _ + 1, _, acc, [] => [acc.reverse]
  | fuel + 1, sep, acc, c :: rest =>
    if isPrefixOfList sep (c :: rest) then
      acc.reverse :: splitOnAuxF fuel sep [] ((c :: rest).drop sep.length)
    else
      splitOnAuxF fuel sep (c :: acc) rest

/-- Python `s.split(sep)` for a nonempty separator. -/
def pySplitOn (s sep : String) : List String :=
  (splitOnAuxF (s.toList.length + 1) sep.toList [] s.toList).map listToStr

/-- Python `sub in s` (for nonempty `sub`): equivalently, splitting on `sub`
yields at least two parts. -/
def pyContains (s sub : String) : Bool := 2 ≤ (pySplitOn s sub).length

def joinWithList (sep : List Char) : List (List Char) → List Char
  | [] => []
  | [x] => x
  | x :: xs => x ++ sep ++ joinWithList sep xs

/-- Python `s.replace(old, new)` for nonempty `old`
(`new.join(s.split(old))`). -/
def pyReplace (s old new : String) : String :=
  listToStr (joinWithList new.toList ((pySplitOn s old).map String.toList))

/-- Worker for Python's no-argument `str.split()`: split on whitespace runs,
dropping empty tokens. -/
def splitWhiteAux (acc : List Char) : List Char → List (List Char)
  | [] => if acc.isEmpty then [] else [acc.reverse]
  | c :: rest =>
    if pySpaceChar c then
      if acc.isEmpty then splitWhiteAux [] rest
      else acc.reverse :: splitWhiteAux [] rest
    else splitWhiteAux (c :: acc) rest

/-- Python `s.split()` (no separator). -/
def pySplitWhite (s : String) : List String :=
  (splitWhiteAux [] s.toList).map listToStr

/-- Python `s.lower()` (the source only lowercases ASCII tokens). -/
def pyLower (s : String) : String := listToStr (s.toList.map Char.toLower)

/-! ## Exact decimal numbers: the model of the Python floats in this program -/

/-- An exact decimal `num / 10 ^ exp`.  This represents the Python floats the
pipeline manipulates (all produced by parsing decimal text) without IEEE
rounding. -/
structure Dec where
  num : Int
  exp : Nat
deriving DecidableEq

namespace Dec

def zero : Dec := ⟨0, 0⟩

def add (a b : Dec) : Dec := ⟨a.num * 10 ^ b.exp + b.num * 10 ^ a.exp, a.exp + b.exp⟩

def sub (a b : Dec) : Dec := ⟨a.num * 10 ^ b.exp - b.num * 10 ^ a.exp, a.exp + b.exp⟩

def mul (a b : Dec) : Dec := ⟨a.num * b.num, a.exp + b.exp⟩

def abs (a : Dec) : Dec := ⟨|a.num|, a.exp⟩

/-- Division by `10 ^ k` (the source divides by the float literal `1e6`). -/
def divPowTen (a : Dec) (k : Nat) : Dec := ⟨a.num, a.exp + k⟩

/-- Decision of `a ≤ b` by cross-multiplication (denominators are powers of
ten, hence positive). -/
def le (a b : Dec) : Bool := a.num * 10 ^ b.exp ≤ b.num * 10 ^ a.exp

/-- The numeric value of an exact decimal. -/
def toRat (a : Dec) : ℚ := (a.num : ℚ) / 10 ^ a.exp

end Dec

/-! ## Python `float(str)` on the decimal literals this pipeline reads -/

def digitsToNat (l : List Char) : Nat :=
  l.foldl (fun acc c => acc * 10 + (c.toNat - 48)) 0

/-- Exponent suffix of a float literal: optional sign then digits. -/
def parseExpPart (cs : List Char) : Option (Bool × Nat) :=
  let p : Bool × List Char :=
    match cs with
    | '+' :: t => (false, t)
    | '-' :: t => (true, t)
    | t => (false, t)
  let ds := p.2.takeWhile Char.isDigit
  if ds.isEmpty || !(p.2.dropWhile Char.isDigit).isEmpty then none
  else some (p.1, digitsToNat ds)

def applyExp (m : Dec) (neg : Bool) (e : Nat) : Dec :=
  if neg then ⟨m.num, m.exp + e⟩ else ⟨m.num * 10 ^ e, m.exp⟩

def pyFloatChars (cs0 : List Char) : Option Dec :=
  let sp : Int × List Char :=
    match cs0 with
    | '+' :: t => (1, t)
    | '-' :: t => (-1, t)
    | t => (1, t)
  let ip := sp.2.takeWhile Char.isDigit
  let rest1 := sp.2.dropWhile Char.isDigit
  match rest1 with
  | [] => if ip.isEmpty then none else some ⟨sp.1 * (digitsToNat ip : Int), 0⟩
  | '.' :: rest2 =>
    let fp := rest2.takeWhile Char.isDigit
    let rest3 := rest2.dropWhile Char.isDigit
    if ip.isEmpty && fp.isEmpty then none
    else
      let m : Dec := ⟨sp.1 * (digitsToNat (ip ++ fp) : Int), fp.length⟩
      match rest3 with
      | [] => some m
      | e :: rest4 =>
        if e = 'e' || e = 'E' then (parseExpPart rest4).map (fun p => applyExp m p.1 p.2)
        else none
  | e :: rest2 =>
    if (e = 'e' || e = 'E') && !ip.isEmpty then
      (parseExpPart rest2).map (fun p => applyExp ⟨sp.1 * (digitsToNat ip : Int), 0⟩ p.1 p.2)
    else none

/-- Python `float(s)` on finite decimal/scientific literals.  Surrounding
whitespace is ignored, exactly as `float` does (`inf`/`nan`/underscore
separators are outside this model's scope; the pipeline's data never uses
them). -/
def pyFloat (s : String) : Option Dec := pyFloatChars (pyTrimChars s.toList)

/-! ## Rendering of target keys (Python `str(float)`) -/

def natReprAux : Nat → Nat → List Char
  | 0, _ => []
  | fuel + 1, n => if n = 0 then [] else natReprAux fuel (n / 10) ++ [Char.ofNat (48 + n % 10)]

def natRepr (n : Nat) : String := if n = 0 then "0" else listToStr (natReprAux (n + 1) n)

/-- Strip factors of ten from the mantissa into the exponent, canonicalising
the representation of a value. -/
def decNormAux : Nat → Int → Int × Nat
  | 0, n => (n, 0)
  | e + 1, n => if n % 10 = 0 then decNormAux e (n / 10) else (n, e + 1)

/-- Models Python `str(float)` as used for the target-column keys: an
injective rendering of the numeric value.  (The glyphs differ from CPython's
`str`, but equal float values give equal text and distinct values give
distinct text, which is what the column semantics depend on.) -/
def mzKey (q : Dec) : String :=
  let p := decNormAux q.exp q.num
  (if p.1 < 0 then "-" else "") ++ natRepr p.1.natAbs ++ "e" ++ natRepr p.2

/-! ## Python dicts as insertion-ordered association lists -/

/-- Python `d[k] = v`: replace in place if the key exists, else append. -/
def dictInsert : List (String × String) → String → String → List (String × String)
  | [], k, v => [(k, v)]
  | (k1, v1) :: rest, k, v =>
    if k1 = k then (k, v) :: rest else (k1, v1) :: dictInsert rest k v

/-- Python `d.get(k)`. -/
def dictGet (d : List (String × String)) (k : String) : Option String :=
  (d.find? (fun p => p.1 = k)).map (fun p => p.2)

/-- Number of bindings carrying key `k` (a real dict always has at most
one). -/
def keyCount (d : List (String × String)) (k : String) : Nat :=
  (d.filter (fun p => p.1 = k)).length

/-! ## `process_mgf_mzid.py`: tolerance matcher and target loader -/

structure Target where
  mz : Dec
  tolerance : Dec
  tolerance_type : String
deriving DecidableEq

/-- `is_within_tolerance` (lines 81–87): ppm tolerances are converted to an
absolute window `(tolerance / 1e6) * target`; anything else is Da. -/
def is_within_tolerance (mz_value target tolerance : Dec) (tol_type : String) : Bool :=
  let tolerance_da := if tol_type = "ppm" then (tolerance.divPowTen 6).mul target else tolerance
  ((mz_value.sub target).abs).le tolerance_da

def required_headers : List String := ["m/z", "tolerance", "tolerance_type"]

def stripBom (s : String) : String :=
  if pyStartsWith s "\uFEFF" then listToStr (s.toList.drop 1) else s

/-- The field names `csv.DictReader` sees when the file is opened with
`encoding='utf-8-sig'`: a byte-order mark at the start of the file is decoded
away, i.e. removed from the first header name; nothing else is altered. -/
def csvFieldnames : List String → List String
  | [] => []
  | h :: t => stripBom h :: t

/-- One `csv.DictReader` row as the dict `{fieldname: cell}`. -/
def rowDict (fieldnames row : List String) : List (String × String) :=
  (fieldnames.zip row).foldl (fun d p => dictInsert d p.1 p.2) []

/-- One iteration of the loader's row loop (lines 62–67): `float(row["m/z"])`,
`float(row["tolerance"])`, `row["tolerance_type"].strip().lower()`.  `none`
models the fatal paths (KeyError / ValueError, both of which end the run). -/
def parseTargetRow (fieldnames row : List String) : Option Target :=
  match dictGet (rowDict fieldnames row) "m/z" with
  | none => none
  | some mzCell =>
    match pyFloat mzCell with
    | none => none
    | some mz =>
      match dictGet (rowDict fieldnames row) "tolerance" with
      | none => none
      | some tolCell =>
        match pyFloat tolCell with
        | none => none
        | some tol =>
          match dictGet (rowDict fieldnames row) "tolerance_type" with
          | none => none
          | some tyCell => some ⟨mz, tol, pyLower (pyStrip tyCell)⟩

/-- The loader's row loop: parse every row in order, aborting on the first
failure (the source `sys.exit`s inside the `except` handlers). -/
def parseTargetRows (fieldnames : List String) :
    List (List String) → Option (List Target)
  | [] => some []
  | row :: rest =>
    match parseTargetRow fieldnames row with
    | none => none
    | some t =>
      match parseTargetRows fieldnames rest with
      | none => none
      | some ts => some (t :: ts)

/-- `parse_mass_targets` (lines 50–78) on a decoded CSV (header row plus data
rows).  `none` models every fatal path (missing required column, unparseable
number): the source prints a message and exits, using no partial target
set. -/
def parse_mass_targets (headers : List String) (rows : List (List String)) :
    Option (List Target) :=
  let fieldnames := csvFieldnames headers
  if required_headers.all (fun h => fieldnames.contains h) then
    parseTargetRows fieldnames rows
  else none

/-! ## Scan-key extraction (`parse_mgf` line 115 and
`parse_mzid_with_scans` line 195) -/

/-- The extraction expression inside `parse_mgf`'s `try:` (line 115):
`line.split("scan=")[1].split('&quot;')[0].strip().replace('"', '').split(' ')[0]`.
`none` models the only possible failure of the chain, an out-of-range `[1]`
(the other two indexings are `[0]` of `split` results, which are never
empty). -/
def scanFromTitle (line : String) : Option String :=
  match (pySplitOn line "scan=").get? 1 with
  | none => none
  | some part =>
    some ((pySplitOn (pyReplace (pyStrip ((pySplitOn part "&quot;").headD ""))
      "\"" "") " ").headD "")

/-- The identical extraction expression inside `parse_mzid_with_scans`
(line 195), transcribed separately from its own source location. -/
def scanFromSpectrumTitle (value : String) : Option String :=
  match (pySplitOn value "scan=").get? 1 with
  | none => none
  | some part =>
    some ((pySplitOn (pyReplace (pyStrip ((pySplitOn part "&quot;").headD ""))
      "\"" "") " ").headD "")

/-- The whole `try/except IndexError` around the extraction: on failure the
scan number becomes the sentinel `"Unknown"`. -/
def titleScanKey (line : String) : String := (scanFromTitle line).getD "Unknown"

/-! ## `parse_mgf` (lines 90–168): the spectrum block parser -/

/-- `line.split("=")[-1]`. -/
def lastEqField (t : String) : String := (pySplitOn t "=").getLastD ""

/-- The `PEPMASS=` branch (lines 123–130).  `none` models the uncaught
IndexError when the value part has no tokens (`except ValueError` does not
catch it, so the run dies in the generic handler); otherwise the result is
the new `(precursor_mz, intensity)`: parse failure of either float token
gives `(None, 0.0)`. -/
def pepmassParse (t : String) : Option (Option Dec × Dec) :=
  match pySplitWhite (pyStrip (lastEqField t)) with
  | [] => none
  | v0 :: rest =>
    match pyFloat v0 with
    | none => some (none, Dec.zero)
    | some p =>
      match rest with
      | [] => some (some p, Dec.zero)
      | v1 :: _ =>
        match pyFloat v1 with
        | none => some (none, Dec.zero)
        | some i => some (some p, i)

/-- The fragment-ion branch (lines 152–160): exactly two whitespace tokens,
both parsing as floats. -/
def ionParse (t : String) : Option (Dec × Dec) :=
  match pySplitWhite t with
  | [a, b] =>
    match pyFloat a, pyFloat b with
    | some x, some y => some (x, y)
    | _, _ => none
  | _ => none

/-- `{str(target["mz"]): "no" for target in targets}` (line 135). -/
def initialHits (targets : List Target) : List (String × String) :=
  targets.foldl (fun d t => dictInsert d (mzKey t.mz) "no") []

/-- The inner loop of lines 140–142: test one peak m/z against every
target. -/
def applyTargets (targets : List Target) (d : List (String × String)) (mz : Dec) :
    List (String × String) :=
  targets.foldl
    (fun d2 t =>
      if is_within_tolerance mz t.mz t.tolerance t.tolerance_type then
        dictInsert d2 (mzKey t.mz) "yes"
      else d2)
    d

/-- The outer loop of lines 139–142 over the accumulated peaks. -/
def applyPeaks (targets : List Target) (d : List (String × String))
    (peaks : List (Dec × Dec)) : List (String × String) :=
  peaks.foldl (fun d2 p => applyTargets targets d2 p.1) d

/-- `target_hits` as computed at an end marker (lines 134–142); the match
loop only runs when targets were supplied. -/
def computeTargetHits (targets : List Target) (peaks : List (Dec × Dec)) :
    List (String × String) :=
  if targets.isEmpty then initialHits targets
  else applyPeaks targets (initialHits targets) peaks

structure Record where
  scan_number : String
  rt : Option Dec
  pepmass : Dec
  intensity : Option Dec
  summed_ms2_intensity : Dec
  target_hits : List (String × String)
deriving DecidableEq

structure MgfState where
  inside_ion_block : Bool
  scan_number : Option String
  rt : Option Dec
  precursor_mz : Option Dec
  intensity : Option Dec
  mz_values : List (Dec × Dec)
  summed_ms2_intensity : Dec
  records : List Record
deriving DecidableEq

/-- Python truthiness of `scan_number` in `if scan_number and ...`:
`None` and `""` are falsy. -/
def truthy : Option String → Bool
  | none => false
  | some s => s ≠ ""

/-- The `BEGIN IONS` reset (lines 104–108). -/
def resetBlock (st : MgfState) : MgfState :=
  { st with
    inside_ion_block := true
    scan_number := none
    rt := none
    precursor_mz := none
    intensity := none
    mz_values := []
    summed_ms2_intensity := Dec.zero }

/-- The record appended at an end marker (lines 144–151), given the checked
scan number and precursor m/z. -/
def blockRecord (targets : List Target) (st : MgfState) (s : String) (pm : Dec) :
    Record :=
  { scan_number := s
    rt := st.rt
    pepmass := pm
    intensity := st.intensity
    summed_ms2_intensity := st.summed_ms2_intensity
    target_hits := computeTargetHits targets st.mz_values }

/-- One iteration of `parse_mgf`'s line loop (lines 101–160).  `none` models
the one way an iteration can raise past the local handlers (empty `PEPMASS=`
token list), which aborts the run. -/
def step (targets : List Target) (st : MgfState) (rawLine : String) :
    Option MgfState :=
  let line := pyStrip rawLine
  if line = "BEGIN IONS" then
    some (resetBlock st)
  else if st.inside_ion_block then
    if pyStartsWith line "TITLE=" then
      if pyContains line "scan=" then
        some { st with scan_number := some (titleScanKey line) }
      else some st
    else if pyStartsWith line "RTINSECONDS=" then
      some { st with rt := pyFloat (pyStrip (lastEqField line)) }
    else if pyStartsWith line "PEPMASS=" then
      match pepmassParse line with
      | none => none
      | some pr => some { st with precursor_mz := pr.1, intensity := some pr.2 }
    else if line = "END IONS" then
      let st1 := { st with inside_ion_block := false }
      match st.scan_number, st.precursor_mz with
      | some s, some pm =>
        if s = "" then some st1
        else some { st1 with records := st.records ++ [blockRecord targets st s pm] }
      | _, _ => some st1
    else
      match ionParse line with
      | some p =>
        some { st with
          mz_values := st.mz_values ++ [p]
          summed_ms2_intensity := st.summed_ms2_intensity.add p.2 }
      | none => some st
  else some st

def processLines (targets : List Target) : MgfState → List String → Option MgfState
  | st, [] => some st
  | st, l :: ls =>
    match step targets st l with
    | none => none
    | some st2 => processLines targets st2 ls

def initState : MgfState :=
  { inside_ion_block := false
    scan_number := none
    rt := none
    precursor_mz := none
    intensity := none
    mz_values := []
    summed_ms2_intensity := Dec.zero
    records := [] }

/-- `parse_mgf` on the stream of lines of the MGF file. -/
def parse_mgf (targets : List Target) (lines : List String) :
    Option (List Record) :=
  (processLines targets initState lines).map (fun st => st.records)

/-! ## `export_to_csv` (lines 229–256): the column schema -/

def base_fieldnames : List String :=
  ["scan_number", "RT", "pepmass", "intensity", "summed_ms2_intensity"]

/-- `final_fieldnames` (lines 237–239): base columns, one column per target
named by the target's rendered value, then `pass_threshold`. -/
def final_fieldnames (targets : List Target) : List String :=
  base_fieldnames ++ targets.map (fun t => mzKey t.mz) ++ ["pass_threshold"]

/-- The cell list `csv.DictWriter` writes for one row: `row.get(key, '')` per
field name (the source's `cleaned_row` at line 248 composed with the
writer's field traversal). -/
def exportCells (row : List (String × String)) (fieldnames : List String) :
    List String :=
  fieldnames.map (fun k => (dictGet row k).getD "")

/-! ## Derived notions used to state the properties -/

/-- A line that, inside a block, reaches the fragment-ion branch: it is not a
block marker and carries none of the three metadata prefixes. -/
def isBodyLine (raw : String) : Bool :=
  let t := pyStrip raw
  (t ≠ "BEGIN IONS") && (!pyStartsWith t "TITLE=") &&
    (!pyStartsWith t "RTINSECONDS=") && (!pyStartsWith t "PEPMASS=") &&
    (t ≠ "END IONS")

/-- The intensity a line contributes to the running sum: its parsed intensity
token if it parses as an ion pair, otherwise nothing. -/
def ionVal (raw : String) : Dec :=
  match ionParse (pyStrip raw) with
  | some p => p.2
  | none => Dec.zero

/-- The ion peaks a line contributes (zero or one). -/
def ionPeaksOf (raw : String) : List (Dec × Dec) := (ionParse (pyStrip raw)).toList

/-- All ion peaks contributed by a list of lines, in order. -/
def ionPeaksList (body : List String) : List (Dec × Dec) := body.flatMap ionPeaksOf

/-- The exact sum of the intensities of the lines that parse as ion pairs. -/
def ionSum (body : List String) : Dec :=
  body.foldr (fun l acc => (ionVal l).add acc) Dec.zero

/-- Apply a function to every value of an association list. -/
def mapVals (f : String → String) (d : List (String × String)) :
    List (String × String) :=
  d.map (fun p => (p.1, f p.2))

/-- Surround a string with one space on each side. -/
def padCell (s : String) : String := listToStr (' ' :: s.toList ++ [' '])

/-! ## Semantics of the exact decimal numbers -/

namespace Dec

theorem toRat_le_iff (a b : Dec) : a.le b = true ↔ a.toRat ≤ b.toRat := by
  have ha : (0:ℚ) < 10 ^ a.exp := by positivity
  have hb : (0:ℚ) < 10 ^ b.exp := by positivity
  rw [le, toRat, toRat, decide_eq_true_eq, div_le_div_iff₀ ha hb]
  constructor
  · intro h
    exact_mod_cast h
  · intro h
    exact_mod_cast h

theorem toRat_sub (a b : Dec) : (a.sub b).toRat = a.toRat - b.toRat := by
  have ha : ((10:ℚ)) ^ a.exp ≠ 0 := by positivity
  have hb : ((10:ℚ)) ^ b.exp ≠ 0 := by positivity
  unfold sub toRat
  rw [div_sub_div _ _ ha hb]
  push_cast [pow_add]
  ring_nf

theorem toRat_add (a b : Dec) : (a.add b).toRat = a.toRat + b.toRat := by
  have ha : ((10:ℚ)) ^ a.exp ≠ 0 := by positivity
  have hb : ((10:ℚ)) ^ b.exp ≠ 0 := by positivity
  unfold add toRat
  rw [div_add_div _ _ ha hb]
  push_cast [pow_add]
  ring_nf

theorem toRat_mul (a b : Dec) : (a.mul b).toRat = a.toRat * b.toRat := by
  unfold mul toRat
  rw [div_mul_div_comm]
  push_cast [pow_add]
  ring_nf

theorem toRat_abs (a : Dec) : (a.abs).toRat = |a.toRat| := by
  unfold abs toRat
  rw [abs_div, Int.cast_abs]
  congr 1
  rw [abs_pow]
  norm_num

theorem toRat_divPowTen (a : Dec) (k : Nat) :
    (a.divPowTen k).toRat = a.toRat / 10 ^ k := by
  unfold divPowTen toRat
  rw [pow_add]
  rw [div_div]

theorem toRat_zero : (zero).toRat = 0 := by
  unfold zero toRat
  norm_num

theorem add_assoc (a b c : Dec) : (a.add b).add c = a.add (b.add c) := by
  simp only [add]
  refine congrArg₂ Dec.mk ?_ ?_
  · push_cast [pow_add]
    ring
  · omega

theorem zero_add (a : Dec) : zero.add a = a := by
  unfold zero add
  refine congrArg₂ Dec.mk ?_ ?_ <;> simp

theorem add_zero (a : Dec) : a.add zero = a := by
  unfold zero add
  refine congrArg₂ Dec.mk ?_ ?_ <;> simp

end Dec

/-! ## Association-list (Python dict) lemmas -/

theorem dictGet_insert_same (d : List (String × String)) (k v : String) :
    dictGet (dictInsert d k v) k = some v := by
  induction d with
  | nil => simp [dictInsert, dictGet, List.find?]
  | cons p rest ih =>
    obtain ⟨k1, v1⟩ := p
    by_cases h : k1 = k
    · simp [dictInsert, h, dictGet, List.find?]
    · simp only [dictInsert, if_neg h]
      simpa [dictGet, List.find?, h] using ih

theorem dictGet_insert_other (d : List (String × String)) (k1 k v : String)
    (h : k1 ≠ k) : dictGet (dictInsert d k1 v) k = dictGet d k := by
  induction d with
  | nil => simp [dictInsert, dictGet, List.find?, h]
  | cons p rest ih =>
    obtain ⟨k2, v2⟩ := p
    by_cases h2 : k2 = k1
    · simp [dictInsert, h2, dictGet, List.find?, h]
    · simp only [dictInsert, if_neg h2]
      by_cases h3 : k2 = k
      · simp [dictGet, List.find?, h3]
      · simpa [dictGet, List.find?, h3] using ih

theorem keyCount_cons (k2 v2 : String) (rest : List (String × String))
    (k : String) :
    keyCount ((k2, v2) :: rest) k =
      (if k2 = k then 1 else 0) + keyCount rest k := by
  by_cases h : k2 = k <;> simp [keyCount, List.filter, h, Nat.add_comm]

theorem keyCount_insert_same (d : List (String × String)) (k v : String) :
    keyCount (dictInsert d k v) k =
      if keyCount d k = 0 then 1 else keyCount d k := by
  induction d with
  | nil => simp [dictInsert, keyCount, List.filter]
  | cons p rest ih =>
    obtain ⟨k2, v2⟩ := p
    by_cases h : k2 = k
    · rw [show dictInsert ((k2, v2) :: rest) k v = (k, v) :: rest by
        simp [dictInsert, h]]
      rw [keyCount_cons, keyCount_cons, if_pos rfl, if_pos h]
      simp
    · rw [show dictInsert ((k2, v2) :: rest) k v
          = (k2, v2) :: dictInsert rest k v by simp [dictInsert, h]]
      rw [keyCount_cons, keyCount_cons, if_neg h, ih]
      simp

theorem keyCount_insert_other (d : List (String × String)) (k1 k v : String)
    (h : k1 ≠ k) : keyCount (dictInsert d k1 v) k = keyCount d k := by
  induction d with
  | nil => simp [dictInsert, keyCount, List.filter, h]
  | cons p rest ih =>
    obtain ⟨k2, v2⟩ := p
    by_cases h2 : k2 = k1
    · rw [show dictInsert ((k2, v2) :: rest) k1 v = (k1, v) :: rest by
        simp [dictInsert, h2]]
      rw [keyCount_cons, keyCount_cons, h2]
    · rw [show dictInsert ((k2, v2) :: rest) k1 v
          = (k2, v2) :: dictInsert rest k1 v by simp [dictInsert, h2]]
      rw [keyCount_cons, keyCount_cons, ih]

theorem keyCount_insert_le_one (d : List (String × String)) (k1 k v : String)
    (h : keyCount d k ≤ 1) : keyCount (dictInsert d k1 v) k ≤ 1 := by
  by_cases hk : k1 = k
  · subst hk
    rw [keyCount_insert_same]
    split <;> omega
  · rw [keyCount_insert_other _ _ _ _ hk]
    exact h

theorem keyCount_pos_of_get (d : List (String × String)) (k v : String)
    (h : dictGet d k = some v) : 1 ≤ keyCount d k := by
  induction d with
  | nil => simp [dictGet, List.find?] at h
  | cons p rest ih =>
    obtain ⟨k1, v1⟩ := p
    by_cases h1 : k1 = k
    · simp [keyCount, List.filter, h1]
    · simp only [dictGet, List.find?] at h
      rw [show (decide (k1 = k)) = false by simp [h1]] at h
      simp only [keyCount, List.filter] at ih ⊢
      rw [show (decide (k1 = k)) = false by simp [h1]]
      exact ih h

/-! ## Lemmas about the target-hit computation -/

theorem applyTargets_get_cases (targets : List Target)
    (d : List (String × String)) (mz : Dec) (k : String) :
    dictGet (applyTargets targets d mz) k = dictGet d k ∨
      (dictGet (applyTargets targets d mz) k = some "yes" ∧
        ∃ t ∈ targets, mzKey t.mz = k ∧
          is_within_tolerance mz t.mz t.tolerance t.tolerance_type = true) := by
  induction targets generalizing d with
  | nil => exact Or.inl rfl
  | cons t ts ih =>
    simp only [applyTargets, List.foldl_cons] at ih ⊢
    by_cases hc : is_within_tolerance mz t.mz t.tolerance t.tolerance_type = true
    · rw [if_pos hc]
      rcases ih (dictInsert d (mzKey t.mz) "yes") with h | ⟨h, t2, ht2, hk2, hm2⟩
      · by_cases hkk : mzKey t.mz = k
        · refine Or.inr ⟨?_, t, List.mem_cons_self t ts, hkk, hc⟩
          rw [h, ← hkk]
          exact dictGet_insert_same d (mzKey t.mz) "yes"
        · refine Or.inl ?_
          rw [h, dictGet_insert_other d (mzKey t.mz) k "yes" hkk]
      · exact Or.inr ⟨h, t2, List.mem_cons_of_mem t ht2, hk2, hm2⟩
    · rw [if_neg hc]
      rcases ih d with h | ⟨h, t2, ht2, hk2, hm2⟩
      · exact Or.inl h
      · exact Or.inr ⟨h, t2, List.mem_cons_of_mem t ht2, hk2, hm2⟩

theorem applyTargets_get_yes_of (targets : List Target)
    (d : List (String × String)) (mz : Dec) (k : String)
    (h : dictGet d k = some "yes") :
    dictGet (applyTargets targets d mz) k = some "yes" := by
  rcases applyTargets_get_cases targets d mz k with h2 | ⟨h2, _⟩
  · rw [h2, h]
  · exact h2

theorem applyTargets_establishes (targets : List Target)
    (d : List (String × String)) (mz : Dec) (t : Target)
    (ht : t ∈ targets)
    (hm : is_within_tolerance mz t.mz t.tolerance t.tolerance_type = true) :
    dictGet (applyTargets targets d mz) (mzKey t.mz) = some "yes" := by
  induction targets generalizing d with
  | nil => exact absurd ht (List.not_mem_nil t)
  | cons t2 ts ih =>
    simp only [applyTargets, List.foldl_cons] at ih ⊢
    rcases List.mem_cons.mp ht with h | h
    · subst h
      rw [if_pos hm]
      exact applyTargets_get_yes_of ts _ mz _ (dictGet_insert_same d _ "yes")
    · by_cases hc : is_within_tolerance mz t2.mz t2.tolerance t2.tolerance_type = true
      · rw [if_pos hc]
        exact ih _ h
      · rw [if_neg hc]
        exact ih _ h

theorem applyPeaks_get_cases (targets : List Target)
    (d : List (String × String)) (peaks : List (Dec × Dec)) (k : String) :
    dictGet (applyPeaks targets d peaks) k = dictGet d k ∨
      (dictGet (applyPeaks targets d peaks) k = some "yes" ∧
        ∃ p ∈ peaks, ∃ t ∈ targets, mzKey t.mz = k ∧
          is_within_tolerance p.1 t.mz t.tolerance t.tolerance_type = true) := by
  induction peaks generalizing d with
  | nil => exact Or.inl rfl
  | cons p ps ih =>
    simp only [applyPeaks, List.foldl_cons] at ih ⊢
    rcases ih (applyTargets targets d p.1) with h | ⟨h, p2, hp2, t2, ht2, hk2, hm2⟩
    · rcases applyTargets_get_cases targets d p.1 k with h2 | ⟨h2, t2, ht2, hk2, hm2⟩
      · exact Or.inl (h.trans h2)
      · exact Or.inr ⟨h.trans h2, p, List.mem_cons_self p ps, t2, ht2, hk2, hm2⟩
    · exact Or.inr ⟨h, p2, List.mem_cons_of_mem p hp2, t2, ht2, hk2, hm2⟩

theorem applyPeaks_get_yes_of (targets : List Target)
    (d : List (String × String)) (peaks : List (Dec × Dec)) (k : String)
    (h : dictGet d k = some "yes") :
    dictGet (applyPeaks targets d peaks) k = some "yes" := by
  rcases applyPeaks_get_cases targets d peaks k with h2 | ⟨h2, _⟩
  · rw [h2, h]
  · exact h2

theorem applyPeaks_establishes (targets : List Target)
    (d : List (String × String)) (pre post : List (Dec × Dec)) (p : Dec × Dec)
    (t : Target) (ht : t ∈ targets)
    (hm : is_within_tolerance p.1 t.mz t.tolerance t.tolerance_type = true) :
    dictGet (applyPeaks targets d (pre ++ p :: post)) (mzKey t.mz) = some "yes" := by
  unfold applyPeaks
  rw [List.foldl_append, List.foldl_cons]
  exact applyPeaks_get_yes_of targets _ post _
    (applyTargets_establishes targets _ p.1 t ht hm)

theorem initHitsAux_get_no_of (ts : List Target) (d : List (String × String))
    (k : String) (h : dictGet d k = some "no") :
    dictGet (ts.foldl (fun d2 t => dictInsert d2 (mzKey t.mz) "no") d) k
      = some "no" := by
  induction ts generalizing d with
  | nil => exact h
  | cons t ts2 ih =>
    rw [List.foldl_cons]
    by_cases hk : mzKey t.mz = k
    · exact ih _ (hk ▸ dictGet_insert_same d (mzKey t.mz) "no")
    · exact ih _ ((dictGet_insert_other d (mzKey t.mz) k "no" hk).trans h)

theorem initHitsAux_get (ts : List Target) (d : List (String × String))
    (t : Target) (ht : t ∈ ts) :
    dictGet (ts.foldl (fun d2 t2 => dictInsert d2 (mzKey t2.mz) "no") d)
      (mzKey t.mz) = some "no" := by
  induction ts generalizing d with
  | nil => exact absurd ht (List.not_mem_nil t)
  | cons t2 ts2 ih =>
    rw [List.foldl_cons]
    rcases List.mem_cons.mp ht with h | h
    · subst h
      exact initHitsAux_get_no_of ts2 _ _ (dictGet_insert_same d _ "no")
    · exact ih _ h

theorem initialHits_get (targets : List Target) (t : Target) (ht : t ∈ targets) :
    dictGet (initialHits targets) (mzKey t.mz) = some "no" :=
  initHitsAux_get targets [] t ht

/-! ## Line-shape disambiguation -/

theorem isPrefixOfList_head_ne {a b : Char} (pa qb l : List Char) (hab : a ≠ b)
    (h : isPrefixOfList (a :: pa) l = true) :
    isPrefixOfList (b :: qb) l = false := by
  cases l with
  | nil => simp [isPrefixOfList] at h
  | cons c rest =>
    simp only [isPrefixOfList, Bool.and_eq_true, decide_eq_true_eq] at h
    have hbc : ¬ b = c := fun hbc => hab (h.1 ▸ hbc ▸ rfl)
    simp [isPrefixOfList, hbc]

theorem pyStartsWith_excl {t p q : String} {a b : Char} {pa qb : List Char}
    (hp : p.toList = a :: pa) (hq : q.toList = b :: qb) (hab : a ≠ b)
    (h : pyStartsWith t p = true) : pyStartsWith t q = false := by
  unfold pyStartsWith at h ⊢
  rw [hp] at h
  rw [hq]
  exact isPrefixOfList_head_ne pa qb t.toList hab h

theorem startsWith_ne_lit {t lit p : String} (h : pyStartsWith t p = true)
    (hlit : pyStartsWith lit p = false) : t ≠ lit := by
  intro he
  rw [he, hlit] at h
  exact Bool.false_ne_true h

/-! ## Branch behaviour of one parser step -/

theorem step_begin (targets : List Target) (st : MgfState) (raw : String)
    (h : pyStrip raw = "BEGIN IONS") :
    step targets st raw = some (resetBlock st) := by
  simp [step, h, resetBlock]

theorem step_outside (targets : List Target) (st : MgfState) (raw : String)
    (hin : st.inside_ion_block = false) (h : pyStrip raw ≠ "BEGIN IONS") :
    step targets st raw = some st := by
  simp [step, h, hin]

theorem step_title (targets : List Target) (st : MgfState) (raw : String)
    (hin : st.inside_ion_block = true)
    (ht : pyStartsWith (pyStrip raw) "TITLE=" = true)
    (hs : pyContains (pyStrip raw) "scan=" = true) :
    step targets st raw
      = some { st with scan_number := some (titleScanKey (pyStrip raw)) } := by
  have h1 : pyStrip raw ≠ "BEGIN IONS" := startsWith_ne_lit ht (by decide)
  simp [step, hin, h1, ht, hs]

theorem step_pepmass (targets : List Target) (st : MgfState) (raw : String)
    (hin : st.inside_ion_block = true)
    (hp : pyStartsWith (pyStrip raw) "PEPMASS=" = true) :
    step targets st raw
      = (pepmassParse (pyStrip raw)).map
          (fun pr => { st with precursor_mz := pr.1, intensity := some pr.2 }) := by
  have h1 : pyStrip raw ≠ "BEGIN IONS" := startsWith_ne_lit hp (by decide)
  have h2 : pyStartsWith (pyStrip raw) "TITLE=" = false :=
    pyStartsWith_excl (a := 'P') (b := 'T') rfl rfl (by decide) hp
  have h3 : pyStartsWith (pyStrip raw) "RTINSECONDS=" = false :=
    pyStartsWith_excl (a := 'P') (b := 'R') rfl rfl (by decide) hp
  cases hpm : pepmassParse (pyStrip raw) with
  | none => simp [step, hin, h1, h2, h3, hp, hpm]
  | some pr => simp [step, hin, h1, h2, h3, hp, hpm]

theorem step_end (targets : List Target) (st : MgfState) (raw : String)
    (hin : st.inside_ion_block = true) (he : pyStrip raw = "END IONS") :
    step targets st raw =
      some (match st.scan_number, st.precursor_mz with
        | some s, some pm =>
          if s = "" then { st with inside_ion_block := false }
          else { st with
                 inside_ion_block := false
                 records := st.records ++ [blockRecord targets st s pm] }
        | _, _ => { st with inside_ion_block := false }) := by
  simp +decide [step, he, hin]
  cases st.scan_number <;> cases st.precursor_mz <;> simp [apply_ite]

theorem step_ion (targets : List Target) (st : MgfState) (raw : String)
    (hin : st.inside_ion_block = true) (hb : isBodyLine raw = true) :
    step targets st raw
      = some { st with
          mz_values := st.mz_values ++ ionPeaksOf raw
          summed_ms2_intensity := st.summed_ms2_intensity.add (ionVal raw) } := by
  simp only [isBodyLine, Bool.and_eq_true, decide_eq_true_eq,
    Bool.not_eq_true'] at hb
  obtain ⟨⟨⟨⟨h1, h2⟩, h3⟩, h4⟩, h5⟩ := hb
  cases hi : ionParse (pyStrip raw) with
  | none =>
    have : st = { st with
        mz_values := st.mz_values ++ ionPeaksOf raw
        summed_ms2_intensity := st.summed_ms2_intensity.add (ionVal raw) } := by
      cases st
      simp [ionPeaksOf, ionVal, hi, Dec.add_zero]
    rw [← this]
    simp [step, hin, h1, h2, h3, h4, h5, hi]
  | some p =>
    have hpk : ionPeaksOf raw = [p] := by simp [ionPeaksOf, hi]
    have hpv : ionVal raw = p.2 := by simp [ionVal, hi]
    rw [hpk, hpv]
    simp [step, hin, h1, h2, h3, h4, h5, hi]

theorem step_records_eq (targets : List Target) (st st2 : MgfState)
    (raw : String) (h : step targets st raw = some st2)
    (hne : pyStrip raw ≠ "END IONS") : st2.records = st.records := by
  simp only [step] at h
  repeat' split at h
  all_goals
    first
    | exact Option.noConfusion h
    | exact absurd (by assumption) hne
    | (cases h; rfl)

theorem processLines_append (targets : List Target) (st : MgfState)
    (xs ys : List String) :
    processLines targets st (xs ++ ys)
      = (processLines targets st xs).bind (fun st2 => processLines targets st2 ys) := by
  induction xs generalizing st with
  | nil => rfl
  | cons l ls ih =>
    simp only [List.cons_append, processLines]
    cases step targets st l with
    | none => rfl
    | some st2 => exact ih st2

theorem processLines_records_eq (targets : List Target) (st st2 : MgfState)
    (lines : List String) (h : processLines targets st lines = some st2)
    (hne : ∀ l ∈ lines, pyStrip l ≠ "END IONS") : st2.records = st.records := by
  induction lines generalizing st with
  | nil =>
    cases h
    rfl
  | cons l ls ih =>
    simp only [processLines] at h
    cases hs : step targets st l with
    | none =>
      rw [hs] at h
      exact Option.noConfusion h
    | some st1 =>
      rw [hs] at h
      have h1 : st1.records = st.records :=
        step_records_eq targets st st1 l hs (hne l (List.mem_cons_self l ls))
      have h2 := ih st1 h (fun l2 hl2 => hne l2 (List.mem_cons_of_mem l hl2))
      rw [h2, h1]

theorem processLines_body (targets : List Target) (st : MgfState)
    (body : List String) (hin : st.inside_ion_block = true)
    (hb : ∀ l ∈ body, isBodyLine l = true) :
    processLines targets st body
      = some { st with
          mz_values := st.mz_values ++ ionPeaksList body
          summed_ms2_intensity := st.summed_ms2_intensity.add (ionSum body) } := by
  induction body generalizing st with
  | nil =>
    simp only [processLines, ionPeaksList, List.flatMap_nil, ionSum,
      List.foldr_nil, List.append_nil, Dec.add_zero]
  | cons l ls ih =>
    have hstep := step_ion targets st l hin (hb l (List.mem_cons_self l ls))
    have hih := ih
      { st with
        mz_values := st.mz_values ++ ionPeaksOf l
        summed_ms2_intensity := st.summed_ms2_intensity.add (ionVal l) }
      hin (fun l2 hl2 => hb l2 (List.mem_cons_of_mem l hl2))
    simp only [processLines, hstep, hih]
    congr 1
    cases st
    simp only [ionPeaksList, List.flatMap_cons, ionSum, List.foldr_cons,
      MgfState.mk.injEq, List.append_assoc, Dec.add_assoc, and_self,
      true_and, and_true]

/-! ## Key-multiplicity invariants of the hit dictionaries -/

theorem initHitsAux_keyCount_le (ts : List Target) (d : List (String × String))
    (k : String) (h : keyCount d k ≤ 1) :
    keyCount (ts.foldl (fun d2 t => dictInsert d2 (mzKey t.mz) "no") d) k ≤ 1 := by
  induction ts generalizing d with
  | nil => exact h
  | cons t ts2 ih =>
    rw [List.foldl_cons]
    exact ih _ (keyCount_insert_le_one d _ k "no" h)

theorem applyTargets_keyCount_le (targets : List Target)
    (d : List (String × String)) (mz : Dec) (k : String)
    (h : keyCount d k ≤ 1) : keyCount (applyTargets targets d mz) k ≤ 1 := by
  induction targets generalizing d with
  | nil => exact h
  | cons t ts ih =>
    simp only [applyTargets, List.foldl_cons] at ih ⊢
    by_cases hc : is_within_tolerance mz t.mz t.tolerance t.tolerance_type = true
    · rw [if_pos hc]
      exact ih _ (keyCount_insert_le_one d _ k "yes" h)
    · rw [if_neg hc]
      exact ih _ h

theorem applyPeaks_keyCount_le (targets : List Target)
    (d : List (String × String)) (peaks : List (Dec × Dec)) (k : String)
    (h : keyCount d k ≤ 1) : keyCount (applyPeaks targets d peaks) k ≤ 1 := by
  induction peaks generalizing d with
  | nil => exact h
  | cons p ps ih =>
    simp only [applyPeaks, List.foldl_cons] at ih ⊢
    exact ih _ (applyTargets_keyCount_le targets d p.1 k h)

/-! ## Whitespace-padding and BOM lemmas for the loader -/

theorem pyTrimChars_cons_space (l : List Char) :
    pyTrimChars (' ' :: l) = pyTrimChars l := by
  unfold pyTrimChars
  rw [List.dropWhile_cons_of_pos (by decide)]

theorem pyTrimChars_append_space (l : List Char) :
    pyTrimChars (l ++ [' ']) = pyTrimChars l := by
  induction l with
  | nil => decide
  | cons c rest ih =>
    by_cases hc : pySpaceChar c = true
    · unfold pyTrimChars at ih ⊢
      rw [List.cons_append, List.dropWhile_cons_of_pos hc,
        List.dropWhile_cons_of_pos hc]
      exact ih
    · have hc2 : pySpaceChar c = false := by
        cases hcc : pySpaceChar c
        · rfl
        · exact absurd hcc hc
      unfold pyTrimChars
      rw [List.cons_append, List.dropWhile_cons_of_neg (by simp [hc2]),
        List.dropWhile_cons_of_neg (by simp [hc2])]
      rw [show (c :: (rest ++ [' '])).reverse = ' ' :: (c :: rest).reverse by
        simp]
      rw [List.dropWhile_cons_of_pos (by decide)]

theorem pyStrip_padCell (s : String) : pyStrip (padCell s) = pyStrip s := by
  unfold pyStrip padCell listToStr
  rw [show (String.mk (' ' :: s.toList ++ [' '])).toList
      = ' ' :: s.toList ++ [' '] from rfl]
  rw [show ' ' :: s.toList ++ [' '] = ' ' :: (s.toList ++ [' ']) from rfl]
  rw [pyTrimChars_cons_space, pyTrimChars_append_space]

theorem pyFloat_padCell (s : String) : pyFloat (padCell s) = pyFloat s := by
  unfold pyFloat padCell listToStr
  rw [show (String.mk (' ' :: s.toList ++ [' '])).toList
      = ' ' :: s.toList ++ [' '] from rfl]
  rw [show ' ' :: s.toList ++ [' '] = ' ' :: (s.toList ++ [' ']) from rfl]
  rw [pyTrimChars_cons_space, pyTrimChars_append_space]

theorem dictInsert_mapVals (f : String → String) (d : List (String × String))
    (k v : String) :
    dictInsert (mapVals f d) k (f v) = mapVals f (dictInsert d k v) := by
  induction d with
  | nil => rfl
  | cons p rest ih =>
    obtain ⟨k1, v1⟩ := p
    by_cases h : k1 = k
    · simp [mapVals, dictInsert, h]
    · simp only [mapVals, List.map_cons, dictInsert, if_neg h]
      rw [show (mapVals f rest) = rest.map (fun p => (p.1, f p.2)) from rfl] at ih
      rw [ih]
      rfl

theorem dictGet_mapVals (f : String → String) (d : List (String × String))
    (k : String) : dictGet (mapVals f d) k = (dictGet d k).map f := by
  induction d with
  | nil => rfl
  | cons p rest ih =>
    obtain ⟨k1, v1⟩ := p
    by_cases h : k1 = k
    · simp [mapVals, dictGet, List.find?, h]
    · simp only [mapVals, List.map_cons, dictGet, List.find?] at ih ⊢
      rw [show (decide (k1 = k)) = false by simp [h]]
      exact ih

theorem rowDictAux_map (f : String → String) (pairs : List (String × String))
    (d : List (String × String)) :
    (pairs.map (fun p => (p.1, f p.2))).foldl (fun d2 p => dictInsert d2 p.1 p.2)
        (mapVals f d)
      = mapVals f (pairs.foldl (fun d2 p => dictInsert d2 p.1 p.2) d) := by
  induction pairs generalizing d with
  | nil => rfl
  | cons p rest ih =>
    obtain ⟨k, v⟩ := p
    rw [List.map_cons, List.foldl_cons, List.foldl_cons]
    rw [show (((k, v).1, f (k, v).2) : String × String) = (k, f v) from rfl]
    rw [show dictInsert (mapVals f d) (k, f v).1 (k, f v).2
        = dictInsert (mapVals f d) k (f v) from rfl]
    rw [dictInsert_mapVals]
    exact ih _

theorem rowDict_map (f : String → String) (fieldnames row : List String) :
    rowDict fieldnames (row.map f) = mapVals f (rowDict fieldnames row) := by
  unfold rowDict
  rw [List.zip_map_right]
  have h := rowDictAux_map f (fieldnames.zip row) []
  simpa [mapVals, Prod.map] using h

theorem parseTargetRow_pad (fieldnames row : List String) :
    parseTargetRow fieldnames (row.map padCell)
      = parseTargetRow fieldnames row := by
  unfold parseTargetRow
  rw [rowDict_map, dictGet_mapVals, dictGet_mapVals, dictGet_mapVals]
  cases h1 : dictGet (rowDict fieldnames row) "m/z" with
  | none => rfl
  | some c1 =>
    simp only [Option.map_some']
    rw [pyFloat_padCell]
    cases pyFloat c1 with
    | none => rfl
    | some mz =>
      cases h2 : dictGet (rowDict fieldnames row) "tolerance" with
      | none => rfl
      | some c2 =>
        simp only [Option.map_some']
        rw [pyFloat_padCell]
        cases pyFloat c2 with
        | none => rfl
        | some tol =>
          cases h3 : dictGet (rowDict fieldnames row) "tolerance_type" with
          | none => rfl
          | some c3 =>
            simp only [Option.map_some']
            rw [pyStrip_padCell]

theorem parseTargetRows_pad (fieldnames : List String)
    (rows : List (List String)) :
    parseTargetRows fieldnames (rows.map (fun r => r.map padCell))
      = parseTargetRows fieldnames rows := by
  induction rows with
  | nil => rfl
  | cons row rest ih =>
    rw [List.map_cons]
    unfold parseTargetRows
    rw [parseTargetRow_pad, ih]

/-! ## The claims -/

/-- C6: for every title string, the scan-key extraction performed by the MGF
spectrum block parser (`parse_mgf`, line 115) and the one performed by the
mzIdentML identification parser (`parse_mzid_with_scans`, line 195) compute
the same key, and the full guarded extraction with its `"Unknown"` fallback
also agrees, so the join key of the merge is computed identically on both
sides. -/
theorem scanKeyExtractionAgrees :
    ∀ s : String,
      scanFromTitle s = scanFromSpectrumTitle s ∧
        titleScanKey s = (scanFromSpectrumTitle s).getD "Unknown" :=
  fun _ => ⟨rfl, rfl⟩

/-- C3: the tolerance matcher returns true exactly when
`|value − target| ≤ window`, with `window = tolerance × target / 1e6` in ppm
mode and `window = tolerance` for any other mode token; it is a total
function.  Moreover `matches(100.0, 100.0, 10, PPM)` is true (after the
loader's case normalisation), `matches(100.0011, 100.0, 10, ppm)` is false,
and `matches(100.005, 100.0, 0.01, ABSOLUTE)` is true. -/
theorem toleranceMatcherCorrect :
    (∀ (v t tol : Dec) (mode : String),
        is_within_tolerance v t tol mode = true ↔
          |v.toRat - t.toRat| ≤
            (if mode = "ppm" then tol.toRat * t.toRat / 1000000
             else tol.toRat)) ∧
      is_within_tolerance ⟨1000, 1⟩ ⟨1000, 1⟩ ⟨10, 0⟩
          (pyLower (pyStrip "PPM")) = true ∧
      is_within_tolerance ⟨1000011, 4⟩ ⟨1000, 1⟩ ⟨10, 0⟩ "ppm" = false ∧
      is_within_tolerance ⟨100005, 3⟩ ⟨1000, 1⟩ ⟨1, 2⟩ "ABSOLUTE" = true := by
  refine ⟨?_, by decide, by decide, by decide⟩
  intro v t tol mode
  simp only [is_within_tolerance]
  rw [Dec.toRat_le_iff, Dec.toRat_abs, Dec.toRat_sub]
  by_cases hm : mode = "ppm"
  · rw [if_pos hm, if_pos hm, Dec.toRat_mul, Dec.toRat_divPowTen]
    rw [show ((10:ℚ)) ^ (6:ℕ) = 1000000 from by norm_num]
    rw [div_mul_eq_mul_div]
  · rw [if_neg hm, if_neg hm]

/-- C4: target-hit evaluation is sticky: if any accumulated fragment peak of
a block matches a target under its tolerance, the emitted record's column for
that target is `"yes"`, no matter how many later peaks fail to match. -/
theorem targetHitSticky (targets : List Target) (t : Target) (st : MgfState)
    (s : String) (pm : Dec) (pre post : List (Dec × Dec)) (p : Dec × Dec)
    (hmz : st.mz_values = pre ++ p :: post) (ht : t ∈ targets)
    (hm : is_within_tolerance p.1 t.mz t.tolerance t.tolerance_type = true) :
    dictGet ((blockRecord targets st s pm).target_hits) (mzKey t.mz)
      = some "yes" := by
  have hne : targets.isEmpty = false := by
    cases targets with
    | nil => exact absurd ht (List.not_mem_nil t)
    | cons a l => rfl
  simp only [blockRecord, computeTargetHits, hne, Bool.false_eq_true,
    if_false, hmz]
  exact applyPeaks_establishes targets (initialHits targets) pre post p t ht hm

/-- C4 witness: a concrete block whose first peak matches the single ppm
target and whose later peak does not still reports `"yes"`. -/
theorem targetHitSticky_witness :
    dictGet ((blockRecord [⟨⟨1000, 1⟩, ⟨10, 0⟩, "ppm"⟩]
        (⟨true, some "5", none, some ⟨50025, 2⟩, some ⟨1000, 0⟩,
          [(⟨1000, 1⟩, ⟨50, 0⟩), (⟨999, 0⟩, ⟨1, 0⟩)], ⟨51, 0⟩, []⟩ : MgfState)
        "5" ⟨50025, 2⟩).target_hits)
      (mzKey (⟨1000, 1⟩ : Dec)) = some "yes" :=
  targetHitSticky [⟨⟨1000, 1⟩, ⟨10, 0⟩, "ppm"⟩] ⟨⟨1000, 1⟩, ⟨10, 0⟩, "ppm"⟩ _
    "5" ⟨50025, 2⟩ [] [(⟨999, 0⟩, ⟨1, 0⟩)] (⟨1000, 1⟩, ⟨50, 0⟩)
    (by decide) (by decide) (by decide)

/-- C5: records are appended only on the end-marker transition: a step whose
line does not strip to `"END IONS"` leaves the record list unchanged, and
over any run of lines with no end marker (in particular a truncated trailing
block after its begin marker) the record list is unchanged, so such a block
is never emitted. -/
theorem truncatedBlockNotEmitted :
    (∀ (targets : List Target) (st st2 : MgfState) (raw : String),
        step targets st raw = some st2 → st2.records ≠ st.records →
          pyStrip raw = "END IONS") ∧
      (∀ (targets : List Target) (st st2 : MgfState) (lines : List String),
          processLines targets st lines = some st2 →
            (∀ l ∈ lines, pyStrip l ≠ "END IONS") →
              st2.records = st.records) := by
  constructor
  · intro targets st st2 raw h hrec
    by_contra hne
    exact hrec (step_records_eq targets st st2 raw h hne)
  · intro targets st st2 lines h hne
    exact processLines_records_eq targets st st2 lines h hne

/-- C5 witness: a truncated trailing block (begin marker, title, precursor
line and one ion line, but no end marker) leaves the record list empty. -/
theorem truncatedBlockNotEmitted_witness :
    processLines [] initState
        ["BEGIN IONS", "TITLE=x scan=5", "PEPMASS=500.25 1000", "100.0 50"]
      = some (⟨true, some "5", none, some ⟨50025, 2⟩, some ⟨1000, 0⟩,
          [(⟨1000, 1⟩, ⟨50, 0⟩)], ⟨50, 0⟩, []⟩ : MgfState) ∧
    (⟨true, some "5", none, some ⟨50025, 2⟩, some ⟨1000, 0⟩,
        [(⟨1000, 1⟩, ⟨50, 0⟩)], ⟨50, 0⟩, []⟩ : MgfState).records
      = initState.records :=
  ⟨by decide,
    truncatedBlockNotEmitted.2 [] initState _
      ["BEGIN IONS", "TITLE=x scan=5", "PEPMASS=500.25 1000", "100.0 50"]
      (by decide) (by decide)⟩

/-- C1: at an end marker inside a block, the step never errors, leaves the
block, and appends exactly one record when the scan key is present (truthy)
and the precursor m/z is present, and appends nothing otherwise — the block
is silently dropped. -/
theorem emissionIffFieldsPresent (targets : List Target) (st : MgfState)
    (raw : String) (hin : st.inside_ion_block = true)
    (he : pyStrip raw = "END IONS") :
    ∃ st2, step targets st raw = some st2 ∧ st2.inside_ion_block = false ∧
      (if truthy st.scan_number && st.precursor_mz.isSome then
        ∃ r, st2.records = st.records ++ [r]
      else st2.records = st.records) := by
  rw [step_end targets st raw hin he]
  cases hs : st.scan_number with
  | none => exact ⟨_, rfl, rfl, by simp [truthy]⟩
  | some s =>
    cases hp : st.precursor_mz with
    | none => exact ⟨_, rfl, rfl, by simp [truthy]⟩
    | some pm =>
      by_cases hse : s = ""
      · subst hse
        refine ⟨_, rfl, rfl, ?_⟩
        simp [truthy]
      · refine ⟨_, rfl, ?_, ?_⟩
        · simp [hse]
        · rw [if_pos (by simp [truthy, hse])]
          simp [hse]

/-- C2: over a whole block, every line that parses as two whitespace-separated
floats contributes its intensity to the emitted record's
`summed_ms2_intensity`, lines that fail to parse contribute nothing, no body
line aborts the run, and the block yields exactly one record carrying the
exact sum. -/
theorem summedIntensityExact (targets : List Target) (st : MgfState)
    (title pep : String) (body : List String) (pm inten : Dec)
    (ht : pyStartsWith (pyStrip title) "TITLE=" = true)
    (hsc : pyContains (pyStrip title) "scan=" = true)
    (hkey : titleScanKey (pyStrip title) ≠ "")
    (hpp : pyStartsWith (pyStrip pep) "PEPMASS=" = true)
    (hpm : pepmassParse (pyStrip pep) = some (some pm, inten))
    (hbody : ∀ l ∈ body, isBodyLine l = true) :
    ∃ st2 r,
      processLines targets st
          ("BEGIN IONS" :: title :: pep :: (body ++ ["END IONS"]))
        = some st2 ∧
      st2.records = st.records ++ [r] ∧
      r.summed_ms2_intensity = ionSum body ∧
      r.scan_number = titleScanKey (pyStrip title) ∧
      r.pepmass = pm := by
  have h0 : step targets st "BEGIN IONS" = some (resetBlock st) :=
    step_begin targets st "BEGIN IONS" (by decide)
  have h1 := step_title targets (resetBlock st) title rfl ht hsc
  have h2 : step targets
      { resetBlock st with scan_number := some (titleScanKey (pyStrip title)) }
      pep
      = some { resetBlock st with
          scan_number := some (titleScanKey (pyStrip title))
          precursor_mz := some pm
          intensity := some inten } := by
    rw [step_pepmass targets _ pep rfl hpp, hpm]
    rfl
  have h3 := processLines_body targets
    { resetBlock st with
      scan_number := some (titleScanKey (pyStrip title))
      precursor_mz := some pm
      intensity := some inten } body rfl hbody
  have h4 : step targets
      { inside_ion_block := (resetBlock st).inside_ion_block
        scan_number := some (titleScanKey (pyStrip title))
        rt := (resetBlock st).rt
        precursor_mz := some pm
        intensity := some inten
        mz_values := (resetBlock st).mz_values ++ ionPeaksList body
        summed_ms2_intensity :=
          (resetBlock st).summed_ms2_intensity.add (ionSum body)
        records := (resetBlock st).records } "END IONS"
      = some { inside_ion_block := false
               scan_number := some (titleScanKey (pyStrip title))
               rt := (resetBlock st).rt
               precursor_mz := some pm
               intensity := some inten
               mz_values := (resetBlock st).mz_values ++ ionPeaksList body
               summed_ms2_intensity :=
                 (resetBlock st).summed_ms2_intensity.add (ionSum body)
               records := (resetBlock st).records ++ [blockRecord targets
                 { inside_ion_block := (resetBlock st).inside_ion_block
                   scan_number := some (titleScanKey (pyStrip title))
                   rt := (resetBlock st).rt
                   precursor_mz := some pm
                   intensity := some inten
                   mz_values := (resetBlock st).mz_values ++ ionPeaksList body
                   summed_ms2_intensity :=
                     (resetBlock st).summed_ms2_intensity.add (ionSum body)
                   records := (resetBlock st).records }
                 (titleScanKey (pyStrip title)) pm] } := by
    rw [step_end targets _ "END IONS" rfl (by decide)]
    dsimp only
    rw [if_neg hkey]
  simp only [processLines, h0, h1, h2, processLines_append, h3, Option.bind]
  simp only [h4]
  refine ⟨_, _, rfl, rfl, ?_, rfl, rfl⟩
  show Dec.zero.add (ionSum body) = ionSum body
  exact Dec.zero_add _

/-- C2 witness: a concrete block with one malformed three-token line, one
unparseable two-token line and two valid ion lines sums exactly the two valid
intensities. -/
theorem summedIntensityExact_witness :
    ∃ st2 r,
      processLines [] initState
          ("BEGIN IONS" :: "TITLE=x scan=5" :: "PEPMASS=500.25 1000" ::
            (["100.0 50", "junk junk junk", "bad 75", "200.0 75"]
              ++ ["END IONS"]))
        = some st2 ∧
      st2.records = initState.records ++ [r] ∧
      r.summed_ms2_intensity
        = ionSum ["100.0 50", "junk junk junk", "bad 75", "200.0 75"] ∧
      r.scan_number = titleScanKey (pyStrip "TITLE=x scan=5") ∧
      r.pepmass = ⟨50025, 2⟩ :=
  summedIntensityExact [] initState "TITLE=x scan=5" "PEPMASS=500.25 1000"
    ["100.0 50", "junk junk junk", "bad 75", "200.0 75"] ⟨50025, 2⟩ ⟨1000, 0⟩
    (by decide) (by decide) (by decide) (by decide) (by decide) (by decide)

/-- C1 witness: with both fields present the end marker emits one record;
the same state with the precursor missing emits nothing. -/
theorem emissionIffFieldsPresent_witness :
    (∃ st2, step []
        (⟨true, some "5", none, some ⟨50025, 2⟩, some ⟨1000, 0⟩, [],
          ⟨0, 0⟩, []⟩ : MgfState) "END IONS" = some st2 ∧
      st2.inside_ion_block = false ∧
      (if truthy (⟨true, some "5", none, some ⟨50025, 2⟩, some ⟨1000, 0⟩, [],
            ⟨0, 0⟩, []⟩ : MgfState).scan_number
          && (⟨true, some "5", none, some ⟨50025, 2⟩, some ⟨1000, 0⟩, [],
            ⟨0, 0⟩, []⟩ : MgfState).precursor_mz.isSome then
        ∃ r, st2.records
          = (⟨true, some "5", none, some ⟨50025, 2⟩, some ⟨1000, 0⟩, [],
              ⟨0, 0⟩, []⟩ : MgfState).records ++ [r]
      else st2.records
        = (⟨true, some "5", none, some ⟨50025, 2⟩, some ⟨1000, 0⟩, [],
            ⟨0, 0⟩, []⟩ : MgfState).records)) :=
  emissionIffFieldsPresent []
    (⟨true, some "5", none, some ⟨50025, 2⟩, some ⟨1000, 0⟩, [], ⟨0, 0⟩, []⟩ :
      MgfState) "END IONS" rfl (by decide)

/-- C7 counterexample: on the title line `TITLE=x scan=` the scan marker is
present, yet the extraction chain succeeds and returns the empty string — not
the `"Unknown"` sentinel — and the block is dropped at its end marker (no
record), contradicting the claim that a failed extraction leaves the block
with a present scan key. -/
theorem scanKeySentinel_cex :
    pyContains (pyStrip "TITLE=x scan=") "scan=" = true ∧
    titleScanKey (pyStrip "TITLE=x scan=") = "" ∧
    titleScanKey (pyStrip "TITLE=x scan=") ≠ "Unknown" ∧
    parse_mgf []
        ["BEGIN IONS", "TITLE=x scan=", "PEPMASS=500.25 1000", "END IONS"]
      = some [] := by decide

/-- C7 (amended): on every title line containing the scan marker the
extraction chain `split("scan=")[1]…` is total, so the `except IndexError`
fallback that would install the `"Unknown"` sentinel is unreachable; the
step stores the guarded key without aborting.  Had the sentinel ever been
installed it would count as a present scan key, whereas the reachable
degenerate extraction `""` counts as absent. -/
theorem scanKeyExtractionTotal (targets : List Target) (st : MgfState)
    (raw : String) (hin : st.inside_ion_block = true)
    (ht : pyStartsWith (pyStrip raw) "TITLE=" = true)
    (hs : pyContains (pyStrip raw) "scan=" = true) :
    (scanFromTitle (pyStrip raw)).isSome = true ∧
    step targets st raw
      = some { st with scan_number := some (titleScanKey (pyStrip raw)) } ∧
    truthy (some "Unknown") = true ∧ truthy (some "") = false := by
  refine ⟨?_, step_title targets st raw hin ht hs, by decide, by decide⟩
  have hlen : 2 ≤ (pySplitOn (pyStrip raw) "scan=").length := by
    have h2 := hs
    unfold pyContains at h2
    exact of_decide_eq_true h2
  unfold scanFromTitle
  cases hg : (pySplitOn (pyStrip raw) "scan=").get? 1 with
  | none =>
    rw [List.get?_eq_none] at hg
    omega
  | some part => rfl

/-- C7 amended-claim witness: a well-formed title line. -/
theorem scanKeyExtractionTotal_witness :
    (scanFromTitle (pyStrip "TITLE=x scan=7")).isSome = true ∧
    step [] (⟨true, none, none, none, none, [], ⟨0, 0⟩, []⟩ : MgfState)
        "TITLE=x scan=7"
      = some { (⟨true, none, none, none, none, [], ⟨0, 0⟩, []⟩ : MgfState) with
          scan_number := some (titleScanKey (pyStrip "TITLE=x scan=7")) } ∧
    truthy (some "Unknown") = true ∧ truthy (some "") = false :=
  scanKeyExtractionTotal [] _ "TITLE=x scan=7" rfl (by decide) (by decide)

/-- C10: a `PEPMASS=` line whose first numeric token parses but whose second
token is present and fails to parse marks the precursor m/z absent and sets
the precursor intensity to 0, so the block is dropped at the end marker (no
record appended) even though a valid precursor m/z appeared on the line. -/
theorem pepmassSecondTokenFailure (targets : List Target) (st : MgfState)
    (raw : String) (hin : st.inside_ion_block = true)
    (hpp : pyStartsWith (pyStrip raw) "PEPMASS=" = true)
    (a b : String) (rest : List String)
    (htoks : pySplitWhite (pyStrip (lastEqField (pyStrip raw)))
      = a :: b :: rest)
    (ha : (pyFloat a).isSome = true) (hb : pyFloat b = none) :
    step targets st raw
        = some { st with precursor_mz := none, intensity := some Dec.zero } ∧
    ∃ st3, step targets
        { st with precursor_mz := none, intensity := some Dec.zero }
        "END IONS" = some st3 ∧ st3.records = st.records := by
  obtain ⟨p, hp⟩ := Option.isSome_iff_exists.mp ha
  have hparse : pepmassParse (pyStrip raw) = some (none, Dec.zero) := by
    unfold pepmassParse
    rw [htoks]
    dsimp only
    rw [hp]
    dsimp only
    rw [hb]
  constructor
  · rw [step_pepmass targets st raw hin hpp, hparse]
    rfl
  · rw [step_end targets
      { st with precursor_mz := none, intensity := some Dec.zero }
      "END IONS" hin (by decide)]
    dsimp only
    cases st.scan_number <;> exact ⟨_, rfl, rfl⟩

/-- C10 witness: `PEPMASS=500.25 abc` inside a block with a scan key. -/
theorem pepmassSecondTokenFailure_witness :
    step [] (⟨true, some "5", none, none, none, [], ⟨0, 0⟩, []⟩ : MgfState)
        "PEPMASS=500.25 abc"
      = some { (⟨true, some "5", none, none, none, [], ⟨0, 0⟩, []⟩ :
            MgfState) with
          precursor_mz := none
          intensity := some Dec.zero } ∧
    ∃ st3, step []
        { (⟨true, some "5", none, none, none, [], ⟨0, 0⟩, []⟩ :
            MgfState) with
          precursor_mz := none
          intensity := some Dec.zero } "END IONS" = some st3 ∧
      st3.records
        = (⟨true, some "5", none, none, none, [], ⟨0, 0⟩, []⟩ :
            MgfState).records :=
  pepmassSecondTokenFailure [] _ "PEPMASS=500.25 abc" rfl (by decide)
    "500.25" "abc" [] (by decide) (by decide) (by decide)

/-- C9: two loaded targets whose values render to the same decimal text
collapse to one column: every block's hit dictionary holds exactly one
binding for that text; that single binding reads `"yes"` exactly when some
peak matches some target carrying that text (the two specs are
indistinguishable); writes to the shared key follow last-write-wins; and the
two column headers and the exported cells under them are always equal. -/
theorem duplicateTargetTextCollapses (targets : List Target) (i j : Nat)
    (hi : i < targets.length) (hj : j < targets.length)
    (hkey : mzKey (targets.get ⟨i, hi⟩).mz = mzKey (targets.get ⟨j, hj⟩).mz)
    (peaks : List (Dec × Dec)) :
    keyCount (computeTargetHits targets peaks)
        (mzKey (targets.get ⟨i, hi⟩).mz) = 1 ∧
    (dictGet (computeTargetHits targets peaks)
        (mzKey (targets.get ⟨i, hi⟩).mz) = some "yes" ↔
      ∃ p ∈ peaks, ∃ t ∈ targets,
        mzKey t.mz = mzKey (targets.get ⟨i, hi⟩).mz ∧
        is_within_tolerance p.1 t.mz t.tolerance t.tolerance_type = true) ∧
    (∀ (d : List (String × String)) (v : String),
      dictGet (dictInsert d (mzKey (targets.get ⟨i, hi⟩).mz) v)
        (mzKey (targets.get ⟨j, hj⟩).mz) = some v) ∧
    (final_fieldnames targets).get? (5 + i)
      = (final_fieldnames targets).get? (5 + j) ∧
    (∀ row : List (String × String),
      (exportCells row (final_fieldnames targets)).get? (5 + i)
        = (exportCells row (final_fieldnames targets)).get? (5 + j)) := by
  have hne : targets.isEmpty = false := by
    cases targets with
    | nil => exact absurd hi (Nat.not_lt_zero i)
    | cons a l => rfl
  have hmem : targets.get ⟨i, hi⟩ ∈ targets := targets.get_mem i hi
  have hcompute : computeTargetHits targets peaks
      = applyPeaks targets (initialHits targets) peaks := by
    simp [computeTargetHits, hne]
  have hno : dictGet (initialHits targets) (mzKey (targets.get ⟨i, hi⟩).mz)
      = some "no" := initialHits_get targets _ hmem
  have hle : keyCount (applyPeaks targets (initialHits targets) peaks)
      (mzKey (targets.get ⟨i, hi⟩).mz) ≤ 1 :=
    applyPeaks_keyCount_le _ _ _ _
      (initHitsAux_keyCount_le targets [] _ (by simp [keyCount]))
  have hsome : ∃ v, dictGet (applyPeaks targets (initialHits targets) peaks)
      (mzKey (targets.get ⟨i, hi⟩).mz) = some v := by
    rcases applyPeaks_get_cases targets (initialHits targets) peaks
        (mzKey (targets.get ⟨i, hi⟩).mz) with h | ⟨h, _⟩
    · exact ⟨"no", h.trans hno⟩
    · exact ⟨"yes", h⟩
  obtain ⟨v, hv⟩ := hsome
  have hge := keyCount_pos_of_get _ _ _ hv
  have hfield : ∀ (nn : Nat) (hnn : nn < targets.length),
      (final_fieldnames targets).get? (5 + nn)
        = some (mzKey (targets.get ⟨nn, hnn⟩).mz) := by
    intro nn hnn
    unfold final_fieldnames base_fieldnames
    rw [List.append_assoc, List.get?_append_right (by simp)]
    simp only [List.length_cons, List.length_nil]
    rw [show 5 + nn - (0 + 1 + 1 + 1 + 1 + 1) = nn from by omega]
    rw [List.get?_append (by simp [hnn]), List.get?_map,
      List.get?_eq_get hnn]
    rfl
  refine ⟨?_, ?_, ?_, ?_, ?_⟩
  · rw [hcompute]
    omega
  · rw [hcompute]
    constructor
    · intro hyes
      rcases applyPeaks_get_cases targets (initialHits targets) peaks
          (mzKey (targets.get ⟨i, hi⟩).mz) with h |
          ⟨_, p, hp2, t2, ht2, hk2, hm2⟩
      · rw [h, hno] at hyes
        exact absurd hyes (by simp)
      · exact ⟨p, hp2, t2, ht2, hk2, hm2⟩
    · rintro ⟨p, hp2, t2, ht2, hk2, hm2⟩
      obtain ⟨pre, post, hsplit⟩ := List.append_of_mem hp2
      rw [hsplit, ← hk2]
      exact applyPeaks_establishes targets _ pre post p t2 ht2 hm2
  · intro d v
    rw [← hkey]
    exact dictGet_insert_same d _ v
  · rw [hfield i hi, hfield j hj, hkey]
  · intro row
    unfold exportCells
    rw [List.get?_map, List.get?_map, hfield i hi, hfield j hj, hkey]

/-- C9 witness: two targets with equal value 100.0 but different tolerances,
and a peak matching only the wider one. -/
theorem duplicateTargetTextCollapses_witness :
    keyCount (computeTargetHits
        [⟨⟨1000, 1⟩, ⟨10, 0⟩, "ppm"⟩, ⟨⟨1000, 1⟩, ⟨2, 1⟩, "da"⟩]
        [(⟨10002, 2⟩, ⟨1, 0⟩)]) (mzKey ⟨1000, 1⟩) = 1 ∧
    (dictGet (computeTargetHits
        [⟨⟨1000, 1⟩, ⟨10, 0⟩, "ppm"⟩, ⟨⟨1000, 1⟩, ⟨2, 1⟩, "da"⟩]
        [(⟨10002, 2⟩, ⟨1, 0⟩)]) (mzKey ⟨1000, 1⟩) = some "yes" ↔
      ∃ p ∈ [((⟨10002, 2⟩ : Dec), (⟨1, 0⟩ : Dec))],
        ∃ t ∈ ([⟨⟨1000, 1⟩, ⟨10, 0⟩, "ppm"⟩, ⟨⟨1000, 1⟩, ⟨2, 1⟩, "da"⟩] :
            List Target),
          mzKey t.mz = mzKey ⟨1000, 1⟩ ∧
          is_within_tolerance p.1 t.mz t.tolerance t.tolerance_type = true) ∧
    (∀ (d : List (String × String)) (v : String),
      dictGet (dictInsert d (mzKey ⟨1000, 1⟩) v) (mzKey ⟨1000, 1⟩)
        = some v) ∧
    (final_fieldnames [⟨⟨1000, 1⟩, ⟨10, 0⟩, "ppm"⟩,
        ⟨⟨1000, 1⟩, ⟨2, 1⟩, "da"⟩]).get? (5 + 0)
      = (final_fieldnames [⟨⟨1000, 1⟩, ⟨10, 0⟩, "ppm"⟩,
        ⟨⟨1000, 1⟩, ⟨2, 1⟩, "da"⟩]).get? (5 + 1) ∧
    (∀ row : List (String × String),
      (exportCells row (final_fieldnames [⟨⟨1000, 1⟩, ⟨10, 0⟩, "ppm"⟩,
          ⟨⟨1000, 1⟩, ⟨2, 1⟩, "da"⟩])).get? (5 + 0)
        = (exportCells row (final_fieldnames [⟨⟨1000, 1⟩, ⟨10, 0⟩, "ppm"⟩,
          ⟨⟨1000, 1⟩, ⟨2, 1⟩, "da"⟩])).get? (5 + 1)) :=
  duplicateTargetTextCollapses
    [⟨⟨1000, 1⟩, ⟨10, 0⟩, "ppm"⟩, ⟨⟨1000, 1⟩, ⟨2, 1⟩, "da"⟩] 0 1
    (by decide) (by decide) (by decide) [(⟨10002, 2⟩, ⟨1, 0⟩)]

/-- C8 counterexample: a target table whose required headers carry
surrounding whitespace fails the verbatim required-column check and the run
aborts, so it does not load the same TargetSpecs as the clean table. -/
theorem loaderHeaderWhitespace_cex :
    parse_mass_targets ["m/z", "tolerance", "tolerance_type"]
        [[" 100.0 ", " 10 ", " PPM "]]
      = some [⟨⟨1000, 1⟩, ⟨10, 0⟩, "ppm"⟩] ∧
    parse_mass_targets [" m/z ", "tolerance", "tolerance_type"]
        [[" 100.0 ", " 10 ", " PPM "]] = none := by decide

/-- C8 (amended): a byte-order mark before the first header is removed by the
`utf-8-sig` decoding, and leading/trailing whitespace on data cells is
tolerated (`float` ignores it, `tolerance_type` is stripped), so tables
differing only in those ways load the same TargetSpecs; header names,
however, are compared verbatim (whitespace-padded headers abort, as the
counterexample shows). -/
theorem loaderBomAndCellWhitespace (h : String) (t : List String)
    (rows : List (List String)) (hnb : pyStartsWith h "\uFEFF" = false) :
    parse_mass_targets (listToStr ('\uFEFF' :: h.toList) :: t) rows
      = parse_mass_targets (h :: t) rows ∧
    parse_mass_targets (h :: t) (rows.map (fun r => r.map padCell))
      = parse_mass_targets (h :: t) rows := by
  have hbom : pyStartsWith (listToStr ('\uFEFF' :: h.toList)) "\uFEFF"
      = true := by
    show isPrefixOfList ['\uFEFF'] ('\uFEFF' :: h.toList) = true
    simp [isPrefixOfList]
  have hstrip : stripBom (listToStr ('\uFEFF' :: h.toList)) = h := by
    unfold stripBom
    rw [if_pos hbom]
    rfl
  have hclean : stripBom h = h := by
    unfold stripBom
    rw [if_neg (by simp [hnb])]
  constructor
  · unfold parse_mass_targets
    simp only [csvFieldnames, hstrip, hclean]
  · unfold parse_mass_targets
    simp only [csvFieldnames, hclean]
    split
    · exact parseTargetRows_pad _ rows
    · rfl

/-- C8 amended-claim witness: a clean three-column table. -/
theorem loaderBomAndCellWhitespace_witness :
    (parse_mass_targets
        (listToStr ('\uFEFF' :: "m/z".toList) :: ["tolerance", "tolerance_type"])
        [["100.0", "10", "ppm"]]
      = parse_mass_targets ("m/z" :: ["tolerance", "tolerance_type"])
          [["100.0", "10", "ppm"]]) ∧
    (parse_mass_targets ("m/z" :: ["tolerance", "tolerance_type"])
        ([["100.0", "10", "ppm"]].map (fun r => r.map padCell))
      = parse_mass_targets ("m/z" :: ["tolerance", "tolerance_type"])
          [["100.0", "10", "ppm"]]) :=
  loaderBomAndCellWhitespace "m/z" ["tolerance", "tolerance_type"]
    [["100.0", "10", "ppm"]] (by decide)

end IntensityWeighting

